import Mathlib

/-!
# Roachtest client-suite harnesses: `runGORM` and `runLibPQ`

A shallow embedding of `pkg/cmd/roachtest/gorm.go` and
`pkg/cmd/roachtest/libpq.go`.

* Go strings are lists of Unicode code points (`GoString`); only valid UTF-8
  text is represented.
* Every call a run makes to a collaborator (cluster, logger, test handle) is
  recorded as an `Event`; the answers of the collaborators are the fields of a
  `World`.  A run is a function from a `World` to the trace of events and the
  way the run ended.
* `strings.Fields`, `strings.Join` and the part of `regexp` the two files use
  are embedded from the Go standard library.
-/

namespace Roachtest

/-- A Go `string`, as the sequence of its code points. -/
abbrev GoString := List Char

/-! ## Go standard library: `unicode`, `strings` -/

/-- Go `unicode.IsSpace`: the Latin-1 spaces and the code points with the
`White_Space` property. -/
def isSpace (r : Char) : Bool :=
  let n := r.toNat
  if n ≤ 0xFF then
    n == 0x09 || n == 0x0A || n == 0x0B || n == 0x0C || n == 0x0D
      || n == 0x20 || n == 0x85 || n == 0xA0
  else
    n == 0x1680 || (0x2000 ≤ n && n ≤ 0x200A) || n == 0x2028 || n == 0x2029
      || n == 0x202F || n == 0x205F || n == 0x3000

/-- Worker of `Fields`: `cur` is the field being read, the second argument is
the text still to scan. -/
def fieldsFrom : GoString → GoString → List GoString
  | cur, [] => if cur.isEmpty then [] else [cur]
  | cur, c :: cs =>
    if isSpace c then
      if cur.isEmpty then fieldsFrom [] cs else cur :: fieldsFrom [] cs
    else fieldsFrom (cur ++ [c]) cs

/-- Go `strings.Fields`: splits the text around each run of one or more white
space characters; the result has no empty field. -/
def Fields (s : GoString) : List GoString := fieldsFrom [] s

/-- Go `strings.Join`. -/
def Join : List GoString → GoString → GoString
  | [], _ => []
  | [a], _ => a
  | a :: b :: rest, sep => a ++ sep ++ Join (b :: rest) sep

/-! ## Go standard library: `regexp`, restricted to literals, groups,
alternation and the two text anchors -/

/-- The operators of `regexp/syntax.Regexp` that the harness patterns use. -/
inductive Regexp where
  | emptyMatch
  | literal (c : Char)
  | beginText
  | endText
  | capture (r : Regexp)
  | concat (r s : Regexp)
  | alternate (r s : Regexp)
  deriving DecidableEq, Repr

/-- Concatenation of a sequence of expressions. -/
def concatOf : List Regexp → Regexp
  | [] => Regexp.emptyMatch
  | [r] => r
  | r :: s :: rest => Regexp.concat r (concatOf (s :: rest))

/-- Alternation of a sequence of expressions. -/
def alternateOf : List Regexp → Regexp
  | [] => Regexp.emptyMatch
  | [r] => r
  | r :: s :: rest => Regexp.alternate r (alternateOf (s :: rest))

/-- One open group of the parser: the alternatives already closed by `|` and
the items of the alternative being read. -/
structure Frame where
  alts : List Regexp
  cur : List Regexp
  deriving DecidableEq, Repr

/-- The expression of a group when it is closed. -/
def Frame.close (f : Frame) : Regexp := alternateOf (f.alts ++ [concatOf f.cur])

/-- The characters with a special meaning in the pattern language. -/
def isMeta (c : Char) : Bool :=
  c == '\\' || c == '.' || c == '+' || c == '*' || c == '?' || c == '(' || c == ')'
    || c == '|' || c == '[' || c == ']' || c == '\x7b' || c == '\x7d' || c == '^'
    || c == '$'

/-- The parser of `regexp/syntax` on the fragment: a stack of open groups, the
innermost in `top`.  A pattern using any other operator is outside the
fragment and is answered with an error. -/
def parseLoop : List Frame → Frame → GoString → Except GoString Regexp
  | [], top, [] => Except.ok top.close
  | _ :: _, _, [] => Except.error "missing closing )".toList
  | stack, top, c :: cs =>
    if c = '(' then parseLoop (top :: stack) ⟨[], []⟩ cs
    else if c = '|' then parseLoop stack ⟨top.alts ++ [concatOf top.cur], []⟩ cs
    else if c = ')' then
      match stack with
      | [] => Except.error "unexpected )".toList
      | parent :: rest =>
        parseLoop rest ⟨parent.alts, parent.cur ++ [Regexp.capture top.close]⟩ cs
    else if c = '^' then parseLoop stack ⟨top.alts, top.cur ++ [Regexp.beginText]⟩ cs
    else if c = '$' then parseLoop stack ⟨top.alts, top.cur ++ [Regexp.endText]⟩ cs
    else if isMeta c then Except.error "operator outside the fragment".toList
    else parseLoop stack ⟨top.alts, top.cur ++ [Regexp.literal c]⟩ cs

/-- Go `syntax.Parse` (as called by `regexp.Compile`; `^` and `$` are the text
anchors because the one-line flag is set). -/
def Parse (pattern : GoString) : Except GoString Regexp :=
  parseLoop [] ⟨[], []⟩ pattern

/-- All ways `r` matches at the current position.  The flag says whether the
position is the beginning of the text, the string is the text from the
position on; each answer is the flag and the rest after one match. -/
def Regexp.step : Regexp → Bool → GoString → List (Bool × GoString)
  | Regexp.emptyMatch, b, s => [(b, s)]
  | Regexp.literal c, _, s =>
    match s with
    | [] => []
    | x :: xs => if x = c then [(false, xs)] else []
  | Regexp.beginText, b, s => if b then [(b, s)] else []
  | Regexp.endText, b, s => if s.isEmpty then [(b, s)] else []
  | Regexp.capture r, b, s => r.step b s
  | Regexp.concat r t, b, s => (r.step b s).flatMap (fun p => t.step p.1 p.2)
  | Regexp.alternate r t, b, s => r.step b s ++ t.step b s

/-- Whether `r` matches at some position of the text (an unanchored search). -/
def Regexp.search (r : Regexp) : Bool → GoString → Bool
  | b, [] => !(r.step b []).isEmpty
  | b, c :: cs => !(r.step b (c :: cs)).isEmpty || r.search false cs

/-- Go `regexp.MatchString`: whether the text contains a match of the
pattern; an error when the pattern does not compile. -/
def MatchString (pattern s : GoString) : Except GoString Bool :=
  match Parse pattern with
  | Except.error e => Except.error e
  | Except.ok re => Except.ok (re.search true s)

/-! ## The harness: data -/

/-- The repository type `blocklist`, a Go `map[string]string` from test name to
the reason it is listed; its declaration is outside the two files.  `none` is
the nil map, `some []` a map that exists and has no entry. -/
abbrev blocklist := Option (List (GoString × GoString))

/-- The two-valued map read `_, ok := m[key]`; a nil map has no key. -/
def blocklist.hasKey (m : blocklist) (key : GoString) : Bool :=
  match m with
  | none => false
  | some entries => entries.any (fun kv => kv.1 == key)

/-- The four results of `getLists`. -/
structure Lists where
  blocklistName : GoString
  expectedFailures : blocklist
  ignorelistName : GoString
  ignoreList : blocklist
  deriving DecidableEq

/-- Names declared elsewhere in the package and used by the two files. -/
structure Consts where
  cockroach : GoString
  goPath : GoString
  gormTestHelperGoFile : GoString

/-- A call made by a run to one of its collaborators, with its arguments. -/
inductive Event where
  | status (msg : GoString)
  | put (src dest : GoString)
  | start
  | fetchCockroachVersion
  | alterZoneConfigAndClusterSettings (version : GoString)
  | repeatGetLatestTag (owner repo releaseRegex : GoString)
  | printf (format : GoString) (args : List GoString)
  | installGolang
  | repeatRunE (operation : GoString) (args : List GoString)
  | repeatGitCloneE (src dest branch : GoString)
  | runE (cmd : GoString)
  | runWithBuffer (cmd : GoString)
  | getLists (version : GoString)
  | parseAndSummarizeJavaORMTestsResults (ormName testOutputFileNames
      blocklistName : GoString) (expectedFailures ignoreList : blocklist)
      (version latestTag : GoString)
  deriving DecidableEq

/-- How a run ended. -/
inductive Ending where
  /-- The body ran to its last statement. -/
  | returned
  /-- Ended by `t.Fatal`. -/
  | fatal (arg : GoString)
  /-- Ended by `t.Fatalf`. -/
  | fatalf (format : GoString) (args : List GoString)
  /-- Ended by `require.NoError` on a non-nil error. -/
  | requireNoError (err : GoString)
  /-- Ended inside a collaborator that fails the test itself. -/
  | aborted (msg : GoString)
  deriving DecidableEq

/-- Whether the run was cut short by a failure of the test. -/
def Ending.isFatal : Ending → Bool
  | Ending.returned => false
  | _ => true

/-- What the collaborators answer during one run.  An `Option` answer is the
error (or the failure message) when there is one. -/
structure World where
  isLocal : Bool
  put : Option GoString
  start : Option GoString
  fetchCockroachVersion : Except GoString GoString
  alterZoneConfigAndClusterSettings : Option GoString
  repeatGetLatestTag : Except GoString GoString
  installGolang : Option GoString
  removeOld : Option GoString
  installJUnitReport : Option GoString
  repeatGitCloneE : Option GoString
  getLists : GoString → Lists
  writeTestConfig : Option GoString
  createDatabase : Option GoString
  listTests : Except GoString GoString
  parseAndSummarize : Option GoString

/-- The same world with another answer of `repeatGetLatestTag`. -/
def World.withLatestTag (w : World) (r : Except GoString GoString) : World :=
  ⟨w.isLocal, w.put, w.start, w.fetchCockroachVersion,
    w.alterZoneConfigAndClusterSettings, r, w.installGolang, w.removeOld,
    w.installJUnitReport, w.repeatGitCloneE, w.getLists, w.writeTestConfig,
    w.createDatabase, w.listTests, w.parseAndSummarize⟩

/-- The same world with another answer of `getLists`. -/
def World.withLists (w : World) (g : GoString → Lists) : World :=
  ⟨w.isLocal, w.put, w.start, w.fetchCockroachVersion,
    w.alterZoneConfigAndClusterSettings, w.repeatGetLatestTag, w.installGolang,
    w.removeOld, w.installJUnitReport, w.repeatGitCloneE, g, w.writeTestConfig,
    w.createDatabase, w.listTests, w.parseAndSummarize⟩

/-- The calls made, in order, and the way the run ended. -/
structure Run where
  trace : List Event
  ending : Ending
  deriving DecidableEq

/-- The run ends here. -/
def stop (e : Ending) : Run := ⟨[], e⟩

/-- The call `ev` is made, then the run goes on as `rest`. -/
def emit (ev : Event) (rest : Run) : Run := ⟨ev :: rest.trace, rest.ending⟩

/-- A collaborator that fails the test itself when it cannot do its work. -/
def orAbort (failure : Option GoString) (rest : Run) : Run :=
  match failure with
  | some msg => stop (Ending.aborted msg)
  | none => rest

/-- The statement `if err != nil \x7b t.Fatal(err) \x7d`. -/
def orFatal (err : Option GoString) (rest : Run) : Run :=
  match err with
  | some e => stop (Ending.fatal e)
  | none => rest

/-- The statement `require.NoError(t, err)`. -/
def orRequire (err : Option GoString) (rest : Run) : Run :=
  match err with
  | some e => stop (Ending.requireNoError e)
  | none => rest

/-! ## `gorm.go` -/

/-- The package variable `gormReleaseTag` (its pattern text). -/
def gormReleaseTag : GoString :=
  "^v(?P<major>\\d+)\\.(?P<minor>\\d+)\\.(?P<point>\\d+)$".toList

/-- The package variable `gormSupportedTag`. -/
def gormSupportedTag : GoString := "v1.21.8".toList

/-- The constant `gormRepo` of `runGORM`. -/
def gormRepo : GoString := "github.com/go-gorm/gorm".toList

/-- The constant `gormPath` of `runGORM`. -/
def gormPath (k : Consts) : GoString := k.goPath ++ "/src/".toList ++ gormRepo

/-- The constant `gormTestPath` of `runGORM`. -/
def gormTestPath (k : Consts) : GoString := gormPath k ++ "/tests/".toList

/-- The constant `resultsDir` of `runGORM`. -/
def gormResultsDir : GoString := "~/logs/report/gorm".toList

/-- The constant `resultsPath` of `runGORM`. -/
def gormResultsPath : GoString := gormResultsDir ++ "/report.xml".toList

/-- The command of `gorm.go` lines 108-113, which executes the gorm suite. -/
def gormSuiteCommand (k : Consts) : GoString :=
  "cd ".toList ++ gormTestPath k
    ++ " && GORMDIALECT=\"postgres\" \nPGUSER=root PGPORT=26257 PGSSLMODE=disable go test -v 2>&1 | ".toList
    ++ k.goPath ++ "/bin/go-junit-report > ".toList ++ gormResultsPath

/-- The function literal `runGORM` of `registerGORM`. -/
def runGORM (k : Consts) (w : World) : Run :=
  if w.isLocal then stop (Ending.fatal "cannot be run in local mode".toList) else
  emit (Event.status "setting up cockroach".toList) <|
  emit (Event.put k.cockroach "./cockroach".toList) <| orAbort w.put <|
  emit Event.start <| orAbort w.start <|
  emit Event.fetchCockroachVersion <|
  match w.fetchCockroachVersion with
  | Except.error err => stop (Ending.fatal err)
  | Except.ok version =>
  emit (Event.alterZoneConfigAndClusterSettings version) <|
  orFatal w.alterZoneConfigAndClusterSettings <|
  emit (Event.status "cloning gorm and installing prerequisites".toList) <|
  emit (Event.repeatGetLatestTag "go-gorm".toList "gorm".toList gormReleaseTag) <|
  match w.repeatGetLatestTag with
  | Except.error err => stop (Ending.fatal err)
  | Except.ok latestTag =>
  emit (Event.printf "Latest gorm release is %s.".toList [latestTag]) <|
  emit (Event.printf "Supported gorm release is %s.".toList [gormSupportedTag]) <|
  emit Event.installGolang <| orAbort w.installGolang <|
  emit (Event.repeatRunE "remove old gorm".toList ["rm -rf ".toList ++ gormPath k]) <|
  orFatal w.removeOld <|
  emit (Event.repeatRunE "install go-junit-report".toList
    ["GOPATH=".toList ++ k.goPath ++ " go get -u github.com/jstemmer/go-junit-report".toList]) <|
  orFatal w.installJUnitReport <|
  emit (Event.repeatGitCloneE ("https://".toList ++ gormRepo ++ ".git".toList) (gormPath k)
    gormSupportedTag) <|
  orFatal w.repeatGitCloneE <|
  emit (Event.runE ("mkdir -p ".toList ++ gormResultsDir)) <|
  emit (Event.getLists version) <|
  let lists := w.getLists version
  if lists.expectedFailures.isNone then
    stop (Ending.fatalf "No gorm blocklist defined for cockroach version %s".toList [version])
  else
  emit (Event.printf "Running cockroach version %s, using blocklist %s, using ignorelist %s".toList
    [version, lists.blocklistName, lists.ignorelistName]) <|
  emit (Event.repeatRunE ("echo \"".toList ++ k.gormTestHelperGoFile ++ "\" > ".toList
    ++ gormTestPath k ++ "/tests_test.go".toList) []) <|
  orFatal w.writeTestConfig <|
  emit (Event.runE "./cockroach sql -e \"CREATE DATABASE gorm\" --insecure".toList) <|
  orRequire w.createDatabase <|
  emit (Event.status "running gorm test suite and collecting results".toList) <|
  emit (Event.runE (gormSuiteCommand k)) <|
  emit (Event.parseAndSummarizeJavaORMTestsResults "gorm".toList gormResultsPath
    lists.blocklistName lists.expectedFailures lists.ignoreList version latestTag) <|
  orAbort w.parseAndSummarize <|
  stop Ending.returned

/-! ## `libpq.go` -/

/-- The package variable `libPQReleaseTagRegex` (its pattern text). -/
def libPQReleaseTagRegex : GoString :=
  "^v(?P<major>\\d+)\\.(?P<minor>\\d+)\\.(?P<point>\\d+)$".toList

/-- The package variable `libPQSupportedTag`. -/
def libPQSupportedTag : GoString := "v1.10.0".toList

/-- The constant `libPQRepo` of `runLibPQ`. -/
def libPQRepo : GoString := "github.com/lib/pq".toList

/-- The constant `libPQPath` of `runLibPQ`. -/
def libPQPath (k : Consts) : GoString := k.goPath ++ "/src/".toList ++ libPQRepo

/-- The constant `resultsDir` of `runLibPQ`. -/
def libPQResultsDir : GoString := "~/logs/report/libpq-results".toList

/-- The constant `resultsPath` of `runLibPQ`. -/
def libPQResultsPath : GoString := libPQResultsDir ++ "/report.xml".toList

/-- The local `testListRegex` of `runLibPQ`. -/
def testListRegex : GoString := "^(Test|Example)".toList

/-- The command of `libpq.go` line 100, which lists the tests. -/
def libPQListCommand (k : Consts) : GoString :=
  "cd ".toList ++ libPQPath k
    ++ " && PGPORT=26257 PGUSER=root PGSSLMODE=disable PGDATABASE=postgres go test -list \"".toList
    ++ testListRegex ++ "\"".toList

/-- The loop of `libpq.go` lines 108-119: the first argument is `allowedTests`
so far, the second the tests still to visit.  An error of `MatchString` ends
the loop (it is handed to `require.NoError`). -/
def selectLoop (ignoreList : blocklist) :
    List GoString → List GoString → Except GoString (List GoString)
  | allowedTests, [] => Except.ok allowedTests
  | allowedTests, testName :: rest =>
    match MatchString testListRegex testName with
    | Except.error err => Except.error err
    | Except.ok matched =>
      if !matched then selectLoop ignoreList allowedTests rest
      else if !(ignoreList.hasKey testName) then
        selectLoop ignoreList (allowedTests ++ [testName]) rest
      else selectLoop ignoreList allowedTests rest

/-- The value of `allowedTests` after the loop, from the output of the listing
command: lines 105-119. -/
def allowedTests (ignoreList : blocklist) (buf : GoString) :
    Except GoString (List GoString) :=
  selectLoop ignoreList [] (Fields buf)

/-- The pattern between the quotes of `allowedTestsRegExp`. -/
def allowedTestsPattern (allowed : List GoString) : GoString :=
  "^(".toList ++ Join allowed "|".toList ++ ")$".toList

/-- The local `allowedTestsRegExp` of line 121. -/
def allowedTestsRegExp (allowed : List GoString) : GoString :=
  "\"".toList ++ allowedTestsPattern allowed ++ "\"".toList

/-- The command of `libpq.go` lines 127-128, which executes the lib/pq suite;
`runArg` is the text put after `-run`. -/
def libPQSuiteCommand (k : Consts) (runArg : GoString) : GoString :=
  "cd ".toList ++ libPQPath k
    ++ " && PGPORT=26257 PGUSER=root PGSSLMODE=disable PGDATABASE=postgres go test -run ".toList
    ++ runArg ++ " -v 2>&1 | ".toList ++ k.goPath ++ "/bin/go-junit-report > ".toList
    ++ libPQResultsPath

/-- The function literal `runLibPQ` of `registerLibPQ`. -/
def runLibPQ (k : Consts) (w : World) : Run :=
  if w.isLocal then stop (Ending.fatal "cannot be run in local mode".toList) else
  emit (Event.status "setting up cockroach".toList) <|
  emit (Event.put k.cockroach "./cockroach".toList) <| orAbort w.put <|
  emit Event.start <| orAbort w.start <|
  emit Event.fetchCockroachVersion <|
  match w.fetchCockroachVersion with
  | Except.error err => stop (Ending.fatal err)
  | Except.ok version =>
  emit (Event.alterZoneConfigAndClusterSettings version) <|
  orFatal w.alterZoneConfigAndClusterSettings <|
  emit (Event.status "cloning lib/pq and installing prerequisites".toList) <|
  emit (Event.repeatGetLatestTag "lib".toList "pq".toList libPQReleaseTagRegex) <|
  match w.repeatGetLatestTag with
  | Except.error err => stop (Ending.requireNoError err)
  | Except.ok latestTag =>
  emit (Event.printf "Latest lib/pq release is %s.".toList [latestTag]) <|
  emit (Event.printf "Supported lib/pq release is %s.".toList [libPQSupportedTag]) <|
  emit Event.installGolang <| orAbort w.installGolang <|
  emit (Event.repeatRunE "remove old lib/pq".toList ["rm -rf ".toList ++ libPQPath k]) <|
  orRequire w.removeOld <|
  emit (Event.repeatRunE "install go-junit-report".toList
    ["GOPATH=".toList ++ k.goPath ++ " go get -u github.com/jstemmer/go-junit-report".toList]) <|
  orRequire w.installJUnitReport <|
  emit (Event.repeatGitCloneE ("https://".toList ++ libPQRepo ++ ".git".toList) (libPQPath k)
    libPQSupportedTag) <|
  orRequire w.repeatGitCloneE <|
  emit (Event.runE ("mkdir -p ".toList ++ libPQResultsDir)) <|
  emit (Event.getLists version) <|
  let lists := w.getLists version
  if lists.expectedFailures.isNone then
    stop (Ending.fatalf "No lib/pq blocklist defined for cockroach version %s".toList [version])
  else
  emit (Event.printf "Running cockroach version %s, using blocklist %s, using ignorelist %s".toList
    [version, lists.blocklistName, lists.ignorelistName]) <|
  emit (Event.status "running lib/pq test suite and collecting results".toList) <|
  emit (Event.runWithBuffer (libPQListCommand k)) <|
  match w.listTests with
  | Except.error err => stop (Ending.requireNoError err)
  | Except.ok buf =>
  match allowedTests lists.ignoreList buf with
  | Except.error err => stop (Ending.requireNoError err)
  | Except.ok allowed =>
  emit (Event.runE (libPQSuiteCommand k (allowedTestsRegExp allowed))) <|
  emit (Event.parseAndSummarizeJavaORMTestsResults "lib/pq".toList libPQResultsPath
    lists.blocklistName lists.expectedFailures lists.ignoreList version latestTag) <|
  orAbort w.parseAndSummarize <|
  stop Ending.returned


/-! ## Auxiliary definitions for the statements -/

/-- The expression of a literal text. -/
def litSeq (w : GoString) : Regexp := concatOf (w.map Regexp.literal)

/-- No character of the text is an operator of the pattern language. -/
def noMeta (w : GoString) : Prop := ∀ c ∈ w, isMeta c = false

/-- The alternatives that the text of `Join names "|"` spells: joining no name
gives the empty text, which spells the one empty alternative. -/
def altNames (names : List GoString) : List GoString :=
  if names.isEmpty then [[]] else names

/-- The expression that `allowedTestsPattern` compiles to. -/
def allowedTestsExpr (names : List GoString) : Regexp :=
  Regexp.concat Regexp.beginText
    (Regexp.concat (Regexp.capture (alternateOf ((altNames names).map litSeq))) Regexp.endText)

/-- Whether the name starts with `Test` or with `Example`. -/
def startsWithTestOrExample (name : GoString) : Bool :=
  "Test".toList.isPrefixOf name || "Example".toList.isPrefixOf name

/-- The names the selection of `runLibPQ` keeps: those that start with `Test`
or `Example` and are no key of the ignorelist. -/
def kept (ignoreList : blocklist) (name : GoString) : Bool :=
  startsWithTestOrExample name && !ignoreList.hasKey name

/-- A character of a test name: a letter, a digit or an underscore.  Every
code point outside ASCII is admitted, which covers the letters and digits of
Unicode. -/
def isWordChar (c : Char) : Bool := c.isAlphanum || c == '_' || decide (128 ≤ c.toNat)

/-- The text is made of letters, digits and underscores only. -/
def wordOnly (s : GoString) : Prop := ∀ c ∈ s, isWordChar c = true

/-- Whether the event is a clone of a repository. -/
def Event.isClone : Event → Bool
  | Event.repeatGitCloneE _ _ _ => true
  | _ => false

/-- Whether the event is a call of the summarizer. -/
def Event.isSummary : Event → Bool
  | Event.parseAndSummarizeJavaORMTestsResults _ _ _ _ _ _ _ => true
  | _ => false

/-- Whether the event runs a command on the cluster (`RunE`, `RunWithBuffer`
or `repeatRunE`). -/
def Event.isCommand : Event → Bool
  | Event.runE _ => true
  | Event.runWithBuffer _ => true
  | Event.repeatRunE _ _ => true
  | _ => false

/-- The event with every place the latest release tag can reach blanked: the
arguments of a log line and the last argument of the summarizer. -/
def Event.eraseLatestTag : Event → Event
  | Event.printf format _ => Event.printf format []
  | Event.parseAndSummarizeJavaORMTestsResults ormName files blocklistName expectedFailures
      ignoreList version _ =>
    Event.parseAndSummarizeJavaORMTestsResults ormName files blocklistName expectedFailures
      ignoreList version []
  | ev => ev

/-- The event with every place the ignorelist and its name can reach blanked:
the arguments of a log line and the ignorelist argument of the summarizer. -/
def Event.eraseIgnoreList : Event → Event
  | Event.printf format _ => Event.printf format []
  | Event.parseAndSummarizeJavaORMTestsResults ormName files blocklistName expectedFailures
      _ version latestTag =>
    Event.parseAndSummarizeJavaORMTestsResults ormName files blocklistName expectedFailures
      none version latestTag
  | ev => ev

/-! ### The `go test` command line -/

/-- The word that follows the word `-run` on a command line, if there is one. -/
def runFlag (cmd : GoString) : Option GoString :=
  match (Fields cmd).dropWhile (fun word => word != "-run".toList) with
  | _ :: arg :: _ => some arg
  | _ => none

/-- The shell removes the double quotes around a word. -/
def unquote (word : GoString) : GoString := word.filter (fun c => c != '"')

/-- Whether a `go test` command line runs the test of the given name: every
test without `-run`, the tests whose name matches the pattern with it. -/
def goTestRuns (cmd name : GoString) : Bool :=
  match runFlag cmd with
  | none => true
  | some arg =>
    match MatchString (unquote arg) name with
    | Except.ok matched => matched
    | Except.error _ => false

/-! ### The reconciliation of the summarizer -/

/-- Modelled from the spec: the outcome of one executed test (section 3);
the summarizer that produces it, `parseAndSummarizeJavaORMTestsResults`, is
declared outside the two files. -/
inductive Outcome where
  | Pass
  | Fail
  deriving DecidableEq

/-- Modelled from the spec: the verdict of the reconciliation for one test
(section 3); the summarizer is declared outside the two files. -/
inductive ReconciliationVerdict where
  | ExpectedFail
  | UnexpectedFail
  | ExpectedPass
  | UnexpectedPass
  | Skipped
  deriving DecidableEq

/-- Modelled from the spec: the fatal error of the reconciliation (section
4.5, step 2); the summarizer is declared outside the two files. -/
inductive ReconcileError where
  | SelectionInconsistencyError
  deriving DecidableEq

/-- Modelled from the spec: the four-way table of section 4.5, step 3, where
`expected` says whether the test is in the blocklist; the summarizer is
declared outside the two files. -/
def fourWay (outcome : Outcome) (expected : Bool) : ReconciliationVerdict :=
  match outcome, expected with
  | Outcome.Fail, true => ReconciliationVerdict.ExpectedFail
  | Outcome.Fail, false => ReconciliationVerdict.UnexpectedFail
  | Outcome.Pass, true => ReconciliationVerdict.UnexpectedPass
  | Outcome.Pass, false => ReconciliationVerdict.ExpectedPass

/-- Modelled from the spec: steps 1 to 3 of section 4.5 for one test name;
the summarizer `parseAndSummarizeJavaORMTestsResults` that performs them is
declared outside the two files. -/
def classify (outcomes : List (GoString × Outcome)) (expectedFailures ignoreList : blocklist)
    (name : GoString) : Except ReconcileError ReconciliationVerdict :=
  if ignoreList.hasKey name then Except.ok ReconciliationVerdict.Skipped
  else
    match outcomes.lookup name with
    | none => Except.error ReconcileError.SelectionInconsistencyError
    | some outcome => Except.ok (fourWay outcome (expectedFailures.hasKey name))

/-- Modelled from the spec: the result of the reconciliation (section 3), with
the verdict of every test, the count of every verdict, the regressions and the
newly fixed tests; the summarizer is declared outside the two files. -/
structure RunSummary where
  verdicts : List (GoString × ReconciliationVerdict)
  counts : ReconciliationVerdict → Nat
  regressions : List GoString
  newlyFixed : List GoString

/-- Modelled from the spec: the aggregation step of section 4.5 for one
verdict; the summarizer is declared outside the two files. -/
def RunSummary.add (s : RunSummary) (name : GoString) (v : ReconciliationVerdict) :
    RunSummary :=
  ⟨s.verdicts ++ [(name, v)],
    fun u => if u = v then s.counts u + 1 else s.counts u,
    if v = ReconciliationVerdict.UnexpectedFail then s.regressions ++ [name] else s.regressions,
    if v = ReconciliationVerdict.UnexpectedPass then s.newlyFixed ++ [name] else s.newlyFixed⟩

/-- Modelled from the spec: the loop of section 4.5 over the discovered
names, which stops at the first fatal error; the summarizer is declared
outside the two files. -/
def reconcileFrom (outcomes : List (GoString × Outcome)) (expectedFailures ignoreList : blocklist) :
    RunSummary → List GoString → Except ReconcileError RunSummary
  | s, [] => Except.ok s
  | s, name :: rest =>
    match classify outcomes expectedFailures ignoreList name with
    | Except.error e => Except.error e
    | Except.ok v => reconcileFrom outcomes expectedFailures ignoreList (s.add name v) rest

/-- Modelled from the spec: `reconcile` of section 4.5, the reconciliation
that `parseAndSummarizeJavaORMTestsResults` (declared outside the two files)
performs. -/
def reconcile (outcomes : List (GoString × Outcome)) (expectedFailures ignoreList : blocklist)
    (allDiscovered : List GoString) : Except ReconcileError RunSummary :=
  reconcileFrom outcomes expectedFailures ignoreList ⟨[], fun _ => 0, [], []⟩ allDiscovered

/-! ### Sample inputs -/

/-- Sample values of the package constants. -/
def sampleConsts : Consts :=
  ⟨"cockroach".toList, "/mnt/data1/go".toList, "package tests_test".toList⟩

/-- A table that answers every version with the given blocklist and ignorelist. -/
def sampleLists (expectedFailures ignoreList : blocklist) : GoString → Lists :=
  fun _ => ⟨"blocklist21_1".toList, expectedFailures, "ignoreList21_1".toList, ignoreList⟩

/-- A world in which every collaborator succeeds, with the given answer of the
tag discovery, the given table and the given output of the listing command. -/
def sampleWorld (latestTag : Except GoString GoString) (lists : GoString → Lists)
    (listing : GoString) : World :=
  ⟨false, none, none, Except.ok "v21.1.0".toList, none, latestTag, none, none, none, none,
    lists, none, none, Except.ok listing, none⟩

instance (s : GoString) : Decidable (wordOnly s) := by
  unfold wordOnly
  infer_instance


/-! ## Lemmas on the pattern matcher -/

theorem step_litSeq (w : GoString) : ∀ (b : Bool) (s : GoString),
    (litSeq w).step b s =
      if w.isPrefixOf s then [(b && w.isEmpty, s.drop w.length)] else [] := by
  induction w with
  | nil => intro b s; simp [litSeq, concatOf, Regexp.step]
  | cons c rest ih =>
    intro b s
    cases rest with
    | nil =>
      cases s with
      | nil => simp [litSeq, concatOf, Regexp.step]
      | cons x xs =>
        by_cases h : x = c
        · subst h; simp [litSeq, concatOf, Regexp.step]
        · have h2 : ¬ c = x := fun e => h e.symm
          simp [litSeq, concatOf, Regexp.step, h, h2]
    | cons d rest2 =>
      have ih2 := ih
      simp only [litSeq] at ih2
      cases s with
      | nil => simp [litSeq, concatOf, Regexp.step]
      | cons x xs =>
        by_cases h : x = c
        · subst h
          simp only [litSeq, List.map, concatOf, Regexp.step, if_true, List.flatMap_cons,
            List.flatMap_nil, List.append_nil]
          rw [← List.map_cons, ih2 false xs]
          simp
        · have h2 : ¬ c = x := fun e => h e.symm
          simp [litSeq, concatOf, Regexp.step, h, h2]

theorem step_alternateOf (r : Regexp) (rs : List Regexp) (b : Bool) (s : GoString) :
    (alternateOf (r :: rs)).step b s = (r :: rs).flatMap (fun q => q.step b s) := by
  induction rs generalizing r with
  | nil => simp [alternateOf]
  | cons q rest ih => simp only [alternateOf, Regexp.step, ih q, List.flatMap_cons]


theorem parseLoop_cons (stack : List Frame) (top : Frame) (c : Char) (cs : GoString) :
    parseLoop stack top (c :: cs) =
      if c = '(' then parseLoop (top :: stack) ⟨[], []⟩ cs
      else if c = '|' then parseLoop stack ⟨top.alts ++ [concatOf top.cur], []⟩ cs
      else if c = ')' then
        match stack with
        | [] => Except.error "unexpected )".toList
        | parent :: rest =>
          parseLoop rest ⟨parent.alts, parent.cur ++ [Regexp.capture top.close]⟩ cs
      else if c = '^' then parseLoop stack ⟨top.alts, top.cur ++ [Regexp.beginText]⟩ cs
      else if c = '$' then parseLoop stack ⟨top.alts, top.cur ++ [Regexp.endText]⟩ cs
      else if isMeta c then Except.error "operator outside the fragment".toList
      else parseLoop stack ⟨top.alts, top.cur ++ [Regexp.literal c]⟩ cs := by
  cases stack <;> rw [parseLoop]

theorem parseLoop_literals (w : GoString) (hw : noMeta w) :
    ∀ (stack : List Frame) (alts cur : List Regexp) (rest : GoString),
      parseLoop stack ⟨alts, cur⟩ (w ++ rest) =
        parseLoop stack ⟨alts, cur ++ w.map Regexp.literal⟩ rest := by
  induction w with
  | nil => intro stack alts cur rest; simp
  | cons c w ih =>
    intro stack alts cur rest
    have hc : isMeta c = false := hw c (List.mem_cons_self c w)
    have hw2 : noMeta w := fun d hd => hw d (List.mem_cons_of_mem c hd)
    have hc2 := hc
    simp only [isMeta, Bool.or_eq_false_iff, beq_eq_false_iff_ne, ne_eq] at hc2
    obtain ⟨⟨⟨⟨⟨⟨⟨⟨⟨⟨⟨⟨⟨_, _⟩, _⟩, _⟩, _⟩, h1⟩, h2⟩, h3⟩, _⟩, _⟩, _⟩, _⟩, h4⟩, h5⟩ := hc2
    rw [List.cons_append, parseLoop_cons]
    simp only [h1, h2, h3, h4, h5, hc, if_false]
    rw [ih hw2]
    simp

theorem parseLoop_join (names : List GoString) (hn : ∀ w ∈ names, noMeta w) :
    ∀ (alts : List Regexp) (parent : Frame) (stack : List Frame) (rest : GoString),
      parseLoop (parent :: stack) ⟨alts, []⟩ (Join names "|".toList ++ ')' :: rest) =
        parseLoop stack ⟨parent.alts, parent.cur ++
          [Regexp.capture (alternateOf (alts ++ (altNames names).map litSeq))]⟩ rest := by
  induction names with
  | nil =>
    intro alts parent stack rest
    simp [Join, altNames, parseLoop, Frame.close, litSeq]
  | cons a tl ih =>
    intro alts parent stack rest
    have ha : noMeta a := hn a (List.mem_cons_self a tl)
    cases tl with
    | nil =>
      simp only [Join, altNames, List.isEmpty_cons, Bool.false_eq_true, if_false]
      rw [parseLoop_literals a ha, parseLoop_cons]
      simp [Frame.close, litSeq]
    | cons b tl2 =>
      have htl : ∀ w ∈ b :: tl2, noMeta w := fun w hw => hn w (List.mem_cons_of_mem a hw)
      have ih2 := ih htl (alts ++ [litSeq a]) parent stack rest
      simp only [Join, List.append_assoc]
      rw [parseLoop_literals a ha]
      show parseLoop (parent :: stack) ⟨alts, [] ++ a.map Regexp.literal⟩
        ('|' :: (Join (b :: tl2) "|".toList ++ ')' :: rest)) = _
      rw [parseLoop_cons]
      simp only [List.nil_append]
      have e : (⟨alts, List.map Regexp.literal a⟩ : Frame).alts
          ++ [concatOf (⟨alts, List.map Regexp.literal a⟩ : Frame).cur] = alts ++ [litSeq a] := rfl
      simp only [show ¬ ('|' = '(') by decide, if_false, if_true, e]
      rw [ih2]
      simp [altNames]

theorem parse_allowedTestsPattern (names : List GoString) (hn : ∀ w ∈ names, noMeta w) :
    Parse (allowedTestsPattern names) = Except.ok (allowedTestsExpr names) := by
  have h := parseLoop_join names hn [] ⟨[], [Regexp.beginText]⟩ [] ['$']
  show parseLoop [] ⟨[], []⟩ ('^' :: '(' :: (Join names "|".toList ++ ")$".toList)) = _
  rw [parseLoop_cons]
  simp only [show ¬ ('^' = '(') by decide, show ¬ ('^' = '|') by decide,
    show ¬ ('^' = ')') by decide, if_false, if_true, List.nil_append]
  rw [parseLoop_cons]
  simp only [if_true]
  show parseLoop [⟨[], [Regexp.beginText]⟩] ⟨[], []⟩ (Join names "|".toList ++ ')' :: ['$']) = _
  rw [h]
  simp [parseLoop, Frame.close, alternateOf, concatOf, allowedTestsExpr]


theorem search_beginText (r : Regexp) (s : GoString) :
    (Regexp.concat Regexp.beginText r).search false s = false := by
  induction s with
  | nil => simp [Regexp.search, Regexp.step]
  | cons c cs ih => simp [Regexp.search, Regexp.step, ih]

theorem search_beginText_start (r : Regexp) (s : GoString) :
    (Regexp.concat Regexp.beginText r).search true s = !(r.step true s).isEmpty := by
  cases s with
  | nil => simp [Regexp.search, Regexp.step]
  | cons c cs => simp [Regexp.search, Regexp.step, search_beginText]

theorem isPrefixOf_drop_nil (w s : GoString) :
    (w.isPrefixOf s = true ∧ s.drop w.length = []) ↔ w = s := by
  constructor
  · rintro ⟨h1, h2⟩
    obtain ⟨t, ht⟩ := List.isPrefixOf_iff_prefix.mp h1
    subst ht
    simp at h2
    simp [h2]
  · intro h
    subst h
    simp

theorem step_names (names : List GoString) (hne : names ≠ []) (b : Bool) (s : GoString) :
    (alternateOf (names.map litSeq)).step b s =
      names.flatMap (fun w => (litSeq w).step b s) := by
  cases names with
  | nil => exact absurd rfl hne
  | cons a tl =>
    rw [List.map_cons, step_alternateOf, ← List.map_cons, List.flatMap_map]

theorem altNames_ne_nil (names : List GoString) : altNames names ≠ [] := by
  cases names <;> simp [altNames]

theorem search_allowedTestsExpr (names : List GoString) (s : GoString) :
    (allowedTestsExpr names).search true s = decide (s ∈ altNames names) := by
  rw [allowedTestsExpr, search_beginText_start]
  simp only [Regexp.step, step_names _ (altNames_ne_nil names), step_litSeq]
  rw [Bool.eq_iff_iff]
  simp only [Bool.not_eq_true', List.isEmpty_eq_false, decide_eq_true_eq, ne_eq,
    List.flatMap_eq_nil_iff, not_forall]
  constructor
  · rintro ⟨p, hp, hq⟩
    simp only [List.mem_flatMap] at hp
    obtain ⟨w, hw, hpw⟩ := hp
    by_cases hpre : w.isPrefixOf s = true
    · simp only [hpre, if_true, List.mem_singleton] at hpw
      subst hpw
      by_cases hd : (s.drop w.length).isEmpty = true
      · have := (isPrefixOf_drop_nil w s).mp ⟨hpre, List.isEmpty_iff.mp hd⟩
        subst this
        exact hw
      · simp [hd] at hq
    · simp [hpre] at hpw
  · intro hs
    refine ⟨(true && s.isEmpty, []), ?_, ?_⟩
    · simp only [List.mem_flatMap]
      exact ⟨s, hs, by simp⟩
    · simp


/-! ## Test selection of `runLibPQ` -/

theorem parse_testListRegex :
    Parse testListRegex = Except.ok (Regexp.concat Regexp.beginText
      (Regexp.capture (Regexp.alternate (litSeq "Test".toList) (litSeq "Example".toList)))) := by
  rfl

theorem matchString_testListRegex (name : GoString) :
    MatchString testListRegex name = Except.ok (startsWithTestOrExample name) := by
  unfold MatchString
  rw [parse_testListRegex]
  have hstep : ∀ (r t : Regexp) (b : Bool) (s : GoString),
      (Regexp.capture (Regexp.alternate r t)).step b s = r.step b s ++ t.step b s := by
    intro r t b s
    rw [Regexp.step, Regexp.step]
  dsimp only
  rw [search_beginText_start, hstep, step_litSeq, step_litSeq]
  simp only [startsWithTestOrExample]
  congr 1
  cases h1 : "Test".toList.isPrefixOf name <;> cases h2 : "Example".toList.isPrefixOf name <;> simp

theorem selectLoop_eq (ignoreList : blocklist) (tests : List GoString) :
    ∀ acc : List GoString,
      selectLoop ignoreList acc tests = Except.ok (acc ++ tests.filter (kept ignoreList)) := by
  induction tests with
  | nil => intro acc; simp [selectLoop]
  | cons t rest ih =>
    intro acc
    rw [selectLoop, matchString_testListRegex]
    cases h1 : startsWithTestOrExample t <;> cases h2 : ignoreList.hasKey t <;>
      simp [ih, kept, h1, h2]

theorem allowedTests_eq (ignoreList : blocklist) (buf : GoString) :
    allowedTests ignoreList buf = Except.ok ((Fields buf).filter (kept ignoreList)) := by
  simp [allowedTests, selectLoop_eq]

theorem startsWithTestOrExample_iff (name : GoString) :
    startsWithTestOrExample name = true ↔
      (∃ rest, name = "Test".toList ++ rest) ∨ (∃ rest, name = "Example".toList ++ rest) := by
  simp only [startsWithTestOrExample, Bool.or_eq_true, List.isPrefixOf_iff_prefix, List.IsPrefix]
  constructor
  · rintro (⟨r, h⟩ | ⟨r, h⟩)
    · exact Or.inl ⟨r, h.symm⟩
    · exact Or.inr ⟨r, h.symm⟩
  · rintro (⟨r, h⟩ | ⟨r, h⟩)
    · exact Or.inl ⟨r, h.symm⟩
    · exact Or.inr ⟨r, h.symm⟩

/-- C1. In the lib/pq run the selection always yields a list `allowedTests`,
and a name is in it exactly when it is one of the white-space separated tokens
of the listing output, it matches `^(Test|Example)` and it is no key of the
ignorelist; matching `^(Test|Example)` is starting with `Test` or `Example`. -/
theorem allowedTests_mem_iff (ignoreList : blocklist) (buf : GoString) :
    ∃ allowed, allowedTests ignoreList buf = Except.ok allowed ∧
      ∀ name : GoString,
        (name ∈ allowed ↔
          name ∈ Fields buf ∧ MatchString testListRegex name = Except.ok true ∧
            ignoreList.hasKey name = false) ∧
        (MatchString testListRegex name = Except.ok true ↔
          (∃ rest, name = "Test".toList ++ rest) ∨
            (∃ rest, name = "Example".toList ++ rest)) := by
  refine ⟨_, allowedTests_eq ignoreList buf, fun name => ⟨?_, ?_⟩⟩
  · rw [matchString_testListRegex]
    simp [kept]
  · rw [matchString_testListRegex, ← startsWithTestOrExample_iff]
    simp

/-- C5. In the lib/pq run `allowedTests` is the sequence of discovered tokens
with the tokens that do not match `^(Test|Example)` or are keys of the
ignorelist removed: the loop keeps the order of discovery, so the result is a
subsequence of the discovered sequence, and every kept name occurs as often as
it was discovered. -/
theorem allowedTests_stable (ignoreList : blocklist) (buf : GoString) :
    ∃ allowed, allowedTests ignoreList buf = Except.ok allowed ∧
      allowed = (Fields buf).filter (kept ignoreList) ∧
      (∀ name, kept ignoreList name = true ↔
        MatchString testListRegex name = Except.ok true ∧ ignoreList.hasKey name = false) ∧
      allowed.Sublist (Fields buf) ∧
      ∀ name ∈ allowed, allowed.count name = (Fields buf).count name := by
  refine ⟨_, allowedTests_eq ignoreList buf, rfl, ?_, List.filter_sublist _, ?_⟩
  · intro name
    rw [matchString_testListRegex]
    simp [kept]
  · intro name hname
    have hk : kept ignoreList name = true := (List.mem_filter.mp hname).2
    rw [List.count_filter hk]

theorem isMeta_of_isWordChar (c : Char) (h : isWordChar c = true) : isMeta c = false := by
  cases hm : isMeta c with
  | false => rfl
  | true =>
    exfalso
    simp only [isMeta, Bool.or_eq_true, beq_iff_eq] at hm
    rcases hm with (((((((((((((e | e) | e) | e) | e) | e) | e) | e) | e) | e) | e) | e) | e) | e) <;>
      (subst e; revert h; decide)

theorem noMeta_of_wordOnly (w : GoString) (h : wordOnly w) : noMeta w :=
  fun c hc => isMeta_of_isWordChar c (h c hc)

theorem matchString_allowedTestsPattern (names : List GoString) (hn : ∀ w ∈ names, noMeta w)
    (s : GoString) :
    MatchString (allowedTestsPattern names) s = Except.ok (decide (s ∈ altNames names)) := by
  unfold MatchString
  rw [parse_allowedTestsPattern names hn]
  dsimp only
  rw [search_allowedTestsExpr]

theorem fieldsFrom_ne_nil (s : GoString) :
    ∀ cur : GoString, ∀ f ∈ fieldsFrom cur s, f ≠ [] := by
  induction s with
  | nil =>
    intro cur f hf
    cases cur with
    | nil => simp [fieldsFrom] at hf
    | cons c cs =>
      simp [fieldsFrom] at hf
      simp [hf]
  | cons c cs ih =>
    intro cur f hf
    rw [fieldsFrom] at hf
    by_cases hsp : isSpace c = true
    · cases cur with
      | nil =>
        simp only [hsp, if_true, List.isEmpty_nil] at hf
        exact ih [] f hf
      | cons d ds =>
        simp only [hsp, if_true, List.isEmpty_cons, Bool.false_eq_true, if_false,
          List.mem_cons] at hf
        rcases hf with hf | hf
        · simp [hf]
        · exact ih [] f hf
    · simp only [hsp, if_false] at hf
      exact ih _ f hf

/-- C10. In the lib/pq run the text after `-run` is `"^(` + the names of
`allowedTests` joined with `|` + `)$"`, and when the names of `allowedTests`
are made of letters, digits and underscores a (non-empty) name matches the
pattern between the quotes exactly when it is an element of `allowedTests`;
when `allowedTests` is empty the pattern is `^()$`, which matches the empty
text only and so no test name. -/
theorem allowedTestsRegExp_selects (k : Consts) (ignoreList : blocklist) (buf : GoString)
    (allowed : List GoString) (name : GoString)
    (hsel : allowedTests ignoreList buf = Except.ok allowed)
    (hallowed : ∀ t ∈ allowed, wordOnly t) (hne : name ≠ []) :
    libPQSuiteCommand k (allowedTestsRegExp allowed) =
        "cd ".toList ++ libPQPath k
          ++ " && PGPORT=26257 PGUSER=root PGSSLMODE=disable PGDATABASE=postgres go test -run ".toList
          ++ ("\"^(".toList ++ Join allowed "|".toList ++ ")$\"".toList)
          ++ " -v 2>&1 | ".toList ++ k.goPath ++ "/bin/go-junit-report > ".toList
          ++ libPQResultsPath ∧
      (MatchString (allowedTestsPattern allowed) name = Except.ok true ↔ name ∈ allowed) ∧
      (allowed = [] → allowedTestsPattern allowed = "^()$".toList ∧
        ∀ s : GoString, MatchString "^()$".toList s = Except.ok true ↔ s = []) := by
  have hnm : ∀ w ∈ allowed, noMeta w := fun w hw => noMeta_of_wordOnly w (hallowed w hw)
  refine ⟨?_, ?_, ?_⟩
  · simp [libPQSuiteCommand, allowedTestsRegExp, allowedTestsPattern]
  · rw [matchString_allowedTestsPattern allowed hnm]
    cases allowed with
    | nil => simp [altNames, hne]
    | cons a tl => simp [altNames]
  · intro he
    subst he
    refine ⟨rfl, fun s => ?_⟩
    have h := matchString_allowedTestsPattern [] (by simp) s
    have hp : allowedTestsPattern [] = "^()$".toList := rfl
    rw [hp] at h
    rw [h]
    simp [altNames]

/-- C8 (as the code behaves). In the lib/pq run test selection never fails and
never reports a duplicate: it always yields a sequence, in which a name that
matches `^(Test|Example)` and is no key of the ignorelist occurs exactly as
often as among the discovered tokens, and any other name does not occur. -/
theorem allowedTests_keeps_duplicates (ignoreList : blocklist) (buf : GoString) :
    ∃ allowed, allowedTests ignoreList buf = Except.ok allowed ∧
      ∀ name : GoString,
        (kept ignoreList name = true ↔
          MatchString testListRegex name = Except.ok true ∧ ignoreList.hasKey name = false) ∧
        allowed.count name =
          if kept ignoreList name then (Fields buf).count name else 0 := by
  refine ⟨_, allowedTests_eq ignoreList buf, fun name => ⟨?_, ?_⟩⟩
  · rw [matchString_testListRegex]
    simp [kept]
  · by_cases hk : kept ignoreList name = true
    · rw [List.count_filter hk]
      simp [hk]
    · simp only [hk, if_false, Bool.false_eq_true]
      rw [List.count_eq_zero]
      intro hmem
      exact hk (List.mem_filter.mp hmem).2

/-- C8, counterexample. The listing output `TestA TestA` names the same test
twice; selection raises no error and yields the name twice. -/
theorem duplicate_names_selected :
    Fields "TestA TestA".toList = ["TestA".toList, "TestA".toList] ∧
      allowedTests none "TestA TestA".toList =
        Except.ok ["TestA".toList, "TestA".toList] := by
  constructor <;> rfl

set_option maxRecDepth 100000 in
/-- C10, at the listing output `TestA ExampleB ok`: the selected names are
`TestA` and `ExampleB`, the name `TestA` matches the pattern, and the suite
command built from it runs `TestA` and does not run `TestX`. -/
theorem allowedTestsRegExp_selects_witness :
    allowedTests none "TestA ExampleB ok".toList =
        Except.ok ["TestA".toList, "ExampleB".toList] ∧
      (∀ t ∈ ["TestA".toList, "ExampleB".toList], wordOnly t) ∧
      "TestA".toList ≠ [] ∧
      MatchString (allowedTestsPattern ["TestA".toList, "ExampleB".toList]) "TestA".toList =
        Except.ok true ∧
      goTestRuns (libPQSuiteCommand sampleConsts
        (allowedTestsRegExp ["TestA".toList, "ExampleB".toList])) "TestA".toList = true ∧
      goTestRuns (libPQSuiteCommand sampleConsts
        (allowedTestsRegExp ["TestA".toList, "ExampleB".toList])) "TestX".toList = false := by
  have h := allowedTestsRegExp_selects sampleConsts none "TestA ExampleB ok".toList
    ["TestA".toList, "ExampleB".toList] "TestA".toList rfl (by decide) (by decide)
  exact ⟨rfl, by decide, by decide, h.2.1.mpr (by decide), by decide, by decide⟩

/-! ## The two runs -/

/-- C2. In the gorm run and in the lib/pq run, when `getLists` is called and
answers a nil blocklist, the run ends in the fatal error of the check: the
call of `getLists` is the last call of the run, so no command is run after the
check (the only `RunE` of the run is the `mkdir` before it, and the listing
command of lib/pq is not run) and the summarizer is never called. -/
theorem nil_blocklist_is_fatal (k : Consts) (w : World) (v : GoString)
    (hnil : (w.getLists v).expectedFailures = none) :
    (Event.getLists v ∈ (runGORM k w).trace →
      (runGORM k w).ending =
          Ending.fatalf "No gorm blocklist defined for cockroach version %s".toList [v] ∧
        (runGORM k w).trace.getLast? = some (Event.getLists v) ∧
        (∀ cmd, Event.runE cmd ∈ (runGORM k w).trace → cmd = "mkdir -p ".toList ++ gormResultsDir) ∧
        ∀ ev ∈ (runGORM k w).trace, ev.isSummary = false) ∧
    (Event.getLists v ∈ (runLibPQ k w).trace →
      (runLibPQ k w).ending =
          Ending.fatalf "No lib/pq blocklist defined for cockroach version %s".toList [v] ∧
        (runLibPQ k w).trace.getLast? = some (Event.getLists v) ∧
        (∀ cmd, Event.runE cmd ∈ (runLibPQ k w).trace →
          cmd = "mkdir -p ".toList ++ libPQResultsDir) ∧
        (∀ cmd, Event.runWithBuffer cmd ∉ (runLibPQ k w).trace) ∧
        ∀ ev ∈ (runLibPQ k w).trace, ev.isSummary = false) := by
  constructor
  · suffices h : ∀ r, r = runGORM k w → (Event.getLists v ∈ r.trace →
      r.ending =
          Ending.fatalf "No gorm blocklist defined for cockroach version %s".toList [v] ∧
        r.trace.getLast? = some (Event.getLists v) ∧
        (∀ cmd, Event.runE cmd ∈ r.trace → cmd = "mkdir -p ".toList ++ gormResultsDir) ∧
        ∀ ev ∈ r.trace, ev.isSummary = false) from h _ rfl
    intro r hr
    simp only [runGORM, orAbort, orFatal, orRequire] at hr
    repeat' split at hr
    all_goals simp only [emit, stop] at hr
    all_goals subst hr
    all_goals intro hmem
    all_goals simp only [List.mem_cons, List.mem_singleton, List.mem_nil_iff, reduceCtorEq,
      Event.getLists.injEq, false_or, or_false, or_self] at hmem
    all_goals subst hmem
    all_goals simp only [hnil, Option.isNone_none, not_true_eq_false, Bool.not_eq_true] at *
    simp [Event.isSummary]
  · suffices h : ∀ r, r = runLibPQ k w → (Event.getLists v ∈ r.trace →
      r.ending =
          Ending.fatalf "No lib/pq blocklist defined for cockroach version %s".toList [v] ∧
        r.trace.getLast? = some (Event.getLists v) ∧
        (∀ cmd, Event.runE cmd ∈ r.trace → cmd = "mkdir -p ".toList ++ libPQResultsDir) ∧
        (∀ cmd, Event.runWithBuffer cmd ∉ r.trace) ∧
        ∀ ev ∈ r.trace, ev.isSummary = false) from h _ rfl
    intro r hr
    simp only [runLibPQ, orAbort, orFatal, orRequire, allowedTests_eq] at hr
    repeat' split at hr
    all_goals simp only [emit, stop] at hr
    all_goals subst hr
    all_goals intro hmem
    all_goals simp only [List.mem_cons, List.mem_singleton, List.mem_nil_iff, reduceCtorEq,
      Event.getLists.injEq, false_or, or_false, or_self] at hmem
    all_goals subst hmem
    all_goals simp only [hnil, Option.isNone_none, not_true_eq_false, Bool.not_eq_true] at *
    simp [Event.isSummary]

/-- C2, at a sample world whose table has no blocklist for the version. -/
theorem nil_blocklist_is_fatal_witness :
    ((sampleWorld (Except.ok "v1.22.0".toList) (sampleLists none none) []).getLists
        "v21.1.0".toList).expectedFailures = none ∧
      (runGORM sampleConsts
          (sampleWorld (Except.ok "v1.22.0".toList) (sampleLists none none) [])).ending =
        Ending.fatalf "No gorm blocklist defined for cockroach version %s".toList
          ["v21.1.0".toList] ∧
      (runLibPQ sampleConsts
          (sampleWorld (Except.ok "v1.22.0".toList) (sampleLists none none) [])).ending =
        Ending.fatalf "No lib/pq blocklist defined for cockroach version %s".toList
          ["v21.1.0".toList] :=
  ⟨rfl,
    ((nil_blocklist_is_fatal sampleConsts
      (sampleWorld (Except.ok "v1.22.0".toList) (sampleLists none none) [])
      "v21.1.0".toList rfl).1 (by decide)).1,
    ((nil_blocklist_is_fatal sampleConsts
      (sampleWorld (Except.ok "v1.22.0".toList) (sampleLists none none) [])
      "v21.1.0".toList rfl).2 (by decide)).1⟩

/-- C3. In both runs, once `getLists` has been called, the fatal error of the
check is raised exactly when the answered blocklist is nil.  When the
blocklist is defined and has no entry, no `Fatalf` ends the run, the run goes
on with the statement after the check, every call of the summarizer carries
that empty blocklist, and, the steps between the check and the suite
succeeding, the suite command is run and the summarizer is called with the
empty blocklist. -/
theorem empty_blocklist_is_not_absent (k : Consts) (w : World) (v : GoString) :
    (Event.getLists v ∈ (runGORM k w).trace →
      ((runGORM k w).ending =
          Ending.fatalf "No gorm blocklist defined for cockroach version %s".toList [v] ↔
        (w.getLists v).expectedFailures = none) ∧
      ((w.getLists v).expectedFailures = some [] →
        (∀ format args, (runGORM k w).ending ≠ Ending.fatalf format args) ∧
        Event.printf "Running cockroach version %s, using blocklist %s, using ignorelist %s".toList
          [v, (w.getLists v).blocklistName, (w.getLists v).ignorelistName] ∈ (runGORM k w).trace ∧
        (∀ ormName files name expected ignore version tag,
          Event.parseAndSummarizeJavaORMTestsResults ormName files name expected ignore version
            tag ∈ (runGORM k w).trace → expected = some []) ∧
        (w.writeTestConfig = none → w.createDatabase = none →
          Event.runE (gormSuiteCommand k) ∈ (runGORM k w).trace ∧
          ∃ latestTag, Event.parseAndSummarizeJavaORMTestsResults "gorm".toList gormResultsPath
            (w.getLists v).blocklistName (some []) (w.getLists v).ignoreList v latestTag ∈
              (runGORM k w).trace))) ∧
    (Event.getLists v ∈ (runLibPQ k w).trace →
      ((runLibPQ k w).ending =
          Ending.fatalf "No lib/pq blocklist defined for cockroach version %s".toList [v] ↔
        (w.getLists v).expectedFailures = none) ∧
      ((w.getLists v).expectedFailures = some [] →
        (∀ format args, (runLibPQ k w).ending ≠ Ending.fatalf format args) ∧
        Event.printf "Running cockroach version %s, using blocklist %s, using ignorelist %s".toList
          [v, (w.getLists v).blocklistName, (w.getLists v).ignorelistName] ∈ (runLibPQ k w).trace ∧
        (∀ ormName files name expected ignore version tag,
          Event.parseAndSummarizeJavaORMTestsResults ormName files name expected ignore version
            tag ∈ (runLibPQ k w).trace → expected = some []) ∧
        (∀ buf, w.listTests = Except.ok buf →
          Event.runE (libPQSuiteCommand k (allowedTestsRegExp
            ((Fields buf).filter (kept (w.getLists v).ignoreList)))) ∈ (runLibPQ k w).trace ∧
          ∃ latestTag, Event.parseAndSummarizeJavaORMTestsResults "lib/pq".toList libPQResultsPath
            (w.getLists v).blocklistName (some []) (w.getLists v).ignoreList v latestTag ∈
              (runLibPQ k w).trace))) := by
  constructor
  · suffices h : ∀ r, r = runGORM k w → (Event.getLists v ∈ r.trace →
      (r.ending =
          Ending.fatalf "No gorm blocklist defined for cockroach version %s".toList [v] ↔
        (w.getLists v).expectedFailures = none) ∧
      ((w.getLists v).expectedFailures = some [] →
        (∀ format args, r.ending ≠ Ending.fatalf format args) ∧
        Event.printf "Running cockroach version %s, using blocklist %s, using ignorelist %s".toList
          [v, (w.getLists v).blocklistName, (w.getLists v).ignorelistName] ∈ r.trace ∧
        (∀ ormName files name expected ignore version tag,
          Event.parseAndSummarizeJavaORMTestsResults ormName files name expected ignore version
            tag ∈ r.trace → expected = some []) ∧
        (w.writeTestConfig = none → w.createDatabase = none →
          Event.runE (gormSuiteCommand k) ∈ r.trace ∧
          ∃ latestTag, Event.parseAndSummarizeJavaORMTestsResults "gorm".toList gormResultsPath
            (w.getLists v).blocklistName (some []) (w.getLists v).ignoreList v latestTag ∈
              r.trace))) from h _ rfl
    intro r hr
    simp only [runGORM, orAbort, orFatal, orRequire] at hr
    repeat' split at hr
    all_goals simp only [emit, stop] at hr
    all_goals subst hr
    all_goals intro hmem
    all_goals simp only [List.mem_cons, List.mem_singleton, List.mem_nil_iff, reduceCtorEq,
      Event.getLists.injEq, false_or, or_false, or_self] at hmem
    all_goals subst hmem
    all_goals simp only [Option.isNone_iff_eq_none] at *
    all_goals simp_all
  · suffices h : ∀ r, r = runLibPQ k w → (Event.getLists v ∈ r.trace →
      (r.ending =
          Ending.fatalf "No lib/pq blocklist defined for cockroach version %s".toList [v] ↔
        (w.getLists v).expectedFailures = none) ∧
      ((w.getLists v).expectedFailures = some [] →
        (∀ format args, r.ending ≠ Ending.fatalf format args) ∧
        Event.printf "Running cockroach version %s, using blocklist %s, using ignorelist %s".toList
          [v, (w.getLists v).blocklistName, (w.getLists v).ignorelistName] ∈ r.trace ∧
        (∀ ormName files name expected ignore version tag,
          Event.parseAndSummarizeJavaORMTestsResults ormName files name expected ignore version
            tag ∈ r.trace → expected = some []) ∧
        (∀ buf, w.listTests = Except.ok buf →
          Event.runE (libPQSuiteCommand k (allowedTestsRegExp
            ((Fields buf).filter (kept (w.getLists v).ignoreList)))) ∈ r.trace ∧
          ∃ latestTag, Event.parseAndSummarizeJavaORMTestsResults "lib/pq".toList libPQResultsPath
            (w.getLists v).blocklistName (some []) (w.getLists v).ignoreList v latestTag ∈
              r.trace))) from h _ rfl
    intro r hr
    simp only [runLibPQ, orAbort, orFatal, orRequire, allowedTests_eq] at hr
    repeat' split at hr
    all_goals simp only [emit, stop] at hr
    all_goals subst hr
    all_goals intro hmem
    all_goals simp only [List.mem_cons, List.mem_singleton, List.mem_nil_iff, reduceCtorEq,
      Event.getLists.injEq, false_or, or_false, or_self] at hmem
    all_goals subst hmem
    all_goals simp only [Option.isNone_iff_eq_none] at *
    all_goals simp_all

/-- C3, at a sample world whose table has a defined blocklist with no entry:
the check does not fail, the suite commands are run and the summarizer is
called with the empty blocklist. -/
theorem empty_blocklist_is_not_absent_witness :
    ((sampleWorld (Except.ok "v1.22.0".toList) (sampleLists (some []) none)
        "TestA TestB".toList).getLists "v21.1.0".toList).expectedFailures = some [] ∧
      Event.runE (gormSuiteCommand sampleConsts) ∈
        (runGORM sampleConsts (sampleWorld (Except.ok "v1.22.0".toList)
          (sampleLists (some []) none) "TestA TestB".toList)).trace ∧
      Event.runE (libPQSuiteCommand sampleConsts
          (allowedTestsRegExp ["TestA".toList, "TestB".toList])) ∈
        (runLibPQ sampleConsts (sampleWorld (Except.ok "v1.22.0".toList)
          (sampleLists (some []) none) "TestA TestB".toList)).trace := by
  have h := empty_blocklist_is_not_absent sampleConsts
    (sampleWorld (Except.ok "v1.22.0".toList) (sampleLists (some []) none) "TestA TestB".toList)
    "v21.1.0".toList
  exact ⟨rfl, ((h.1 (by decide)).2 rfl).2.2.2 rfl rfl |>.1,
    (((h.2 (by decide)).2 rfl).2.2.2 "TestA TestB".toList rfl).1⟩

/-- C6. The latest release tag does not change what a run does: for any two
tags answered by the tag discovery, the gorm run (and the lib/pq run) ends the
same way and makes the same calls with the same arguments, but for the
arguments of the log lines and the last argument of the summarizer; every
clone is of the pinned tag and the commands run are the same. -/
theorem latest_tag_is_advisory (k : Consts) (w : World) (tag1 tag2 : GoString) :
    ((runGORM k (w.withLatestTag (Except.ok tag1))).ending =
        (runGORM k (w.withLatestTag (Except.ok tag2))).ending ∧
      (runGORM k (w.withLatestTag (Except.ok tag1))).trace.map Event.eraseLatestTag =
        (runGORM k (w.withLatestTag (Except.ok tag2))).trace.map Event.eraseLatestTag ∧
      (∀ src dest branch, Event.repeatGitCloneE src dest branch ∈
          (runGORM k (w.withLatestTag (Except.ok tag1))).trace →
        branch = gormSupportedTag ∧ Event.repeatGitCloneE src dest branch ∈
          (runGORM k (w.withLatestTag (Except.ok tag2))).trace) ∧
      (∀ cmd, Event.runE cmd ∈ (runGORM k (w.withLatestTag (Except.ok tag1))).trace →
        Event.runE cmd ∈ (runGORM k (w.withLatestTag (Except.ok tag2))).trace)) ∧
    ((runLibPQ k (w.withLatestTag (Except.ok tag1))).ending =
        (runLibPQ k (w.withLatestTag (Except.ok tag2))).ending ∧
      (runLibPQ k (w.withLatestTag (Except.ok tag1))).trace.map Event.eraseLatestTag =
        (runLibPQ k (w.withLatestTag (Except.ok tag2))).trace.map Event.eraseLatestTag ∧
      (∀ src dest branch, Event.repeatGitCloneE src dest branch ∈
          (runLibPQ k (w.withLatestTag (Except.ok tag1))).trace →
        branch = libPQSupportedTag ∧ Event.repeatGitCloneE src dest branch ∈
          (runLibPQ k (w.withLatestTag (Except.ok tag2))).trace) ∧
      (∀ cmd, Event.runE cmd ∈ (runLibPQ k (w.withLatestTag (Except.ok tag1))).trace →
        Event.runE cmd ∈ (runLibPQ k (w.withLatestTag (Except.ok tag2))).trace)) := by
  constructor
  · suffices h : ∀ r1 r2, r1 = runGORM k (w.withLatestTag (Except.ok tag1)) →
        r2 = runGORM k (w.withLatestTag (Except.ok tag2)) →
        (r1.ending = r2.ending ∧
          r1.trace.map Event.eraseLatestTag = r2.trace.map Event.eraseLatestTag ∧
          (∀ src dest branch, Event.repeatGitCloneE src dest branch ∈ r1.trace →
            branch = gormSupportedTag ∧ Event.repeatGitCloneE src dest branch ∈ r2.trace) ∧
          (∀ cmd, Event.runE cmd ∈ r1.trace → Event.runE cmd ∈ r2.trace)) from h _ _ rfl rfl
    intro r1 r2 hr1 hr2
    simp only [runGORM, World.withLatestTag, orAbort, orFatal, orRequire] at hr1 hr2
    repeat' split at hr1
    all_goals simp only [*, if_true, if_false, not_true_eq_false, not_false_eq_true,
      Bool.false_eq_true] at hr2
    all_goals simp only [emit, stop] at hr1 hr2
    all_goals subst hr1
    all_goals subst hr2
    all_goals try simp [Event.eraseLatestTag]
    all_goals (intro _ _ _ h1 h2 h3; exact ⟨h3, h1, h2, h3⟩)
  · suffices h : ∀ r1 r2, r1 = runLibPQ k (w.withLatestTag (Except.ok tag1)) →
        r2 = runLibPQ k (w.withLatestTag (Except.ok tag2)) →
        (r1.ending = r2.ending ∧
          r1.trace.map Event.eraseLatestTag = r2.trace.map Event.eraseLatestTag ∧
          (∀ src dest branch, Event.repeatGitCloneE src dest branch ∈ r1.trace →
            branch = libPQSupportedTag ∧ Event.repeatGitCloneE src dest branch ∈ r2.trace) ∧
          (∀ cmd, Event.runE cmd ∈ r1.trace → Event.runE cmd ∈ r2.trace)) from h _ _ rfl rfl
    intro r1 r2 hr1 hr2
    simp only [runLibPQ, World.withLatestTag, orAbort, orFatal, orRequire, allowedTests_eq]
      at hr1 hr2
    repeat' split at hr1
    all_goals simp only [*, if_true, if_false, not_true_eq_false, not_false_eq_true,
      Bool.false_eq_true] at hr2
    all_goals simp only [emit, stop] at hr1 hr2
    all_goals subst hr1
    all_goals subst hr2
    all_goals try simp [Event.eraseLatestTag]
    all_goals (intro _ _ _ h1 h2 h3; exact ⟨h3, h1, h2, h3⟩)

/-- C7 (as the code behaves). A failure to resolve the latest release tag is
fatal: when `repeatGetLatestTag` answers an error, both runs end in a failure
of the test without cloning, running a command or calling the summarizer, and
when the tag discovery was reached the run ends there with that error
(`t.Fatal` in the gorm run, `require.NoError` in the lib/pq run). -/
theorem tag_discovery_error_is_fatal (k : Consts) (w : World) (err : GoString)
    (herr : w.repeatGetLatestTag = Except.error err) :
    ((runGORM k w).ending.isFatal = true ∧
      (∀ ev ∈ (runGORM k w).trace,
        ev.isClone = false ∧ ev.isCommand = false ∧ ev.isSummary = false) ∧
      (Event.repeatGetLatestTag "go-gorm".toList "gorm".toList gormReleaseTag ∈
          (runGORM k w).trace →
        (runGORM k w).ending = Ending.fatal err ∧
          (runGORM k w).trace.getLast? =
            some (Event.repeatGetLatestTag "go-gorm".toList "gorm".toList gormReleaseTag))) ∧
    ((runLibPQ k w).ending.isFatal = true ∧
      (∀ ev ∈ (runLibPQ k w).trace,
        ev.isClone = false ∧ ev.isCommand = false ∧ ev.isSummary = false) ∧
      (Event.repeatGetLatestTag "lib".toList "pq".toList libPQReleaseTagRegex ∈
          (runLibPQ k w).trace →
        (runLibPQ k w).ending = Ending.requireNoError err ∧
          (runLibPQ k w).trace.getLast? =
            some (Event.repeatGetLatestTag "lib".toList "pq".toList libPQReleaseTagRegex))) := by
  constructor
  · suffices h : ∀ r, r = runGORM k w →
        (r.ending.isFatal = true ∧
          (∀ ev ∈ r.trace, ev.isClone = false ∧ ev.isCommand = false ∧ ev.isSummary = false) ∧
          (Event.repeatGetLatestTag "go-gorm".toList "gorm".toList gormReleaseTag ∈ r.trace →
            r.ending = Ending.fatal err ∧
              r.trace.getLast? =
                some (Event.repeatGetLatestTag "go-gorm".toList "gorm".toList gormReleaseTag)))
        from h _ rfl
    intro r hr
    simp only [runGORM, herr, orAbort, orFatal, orRequire] at hr
    repeat' split at hr
    all_goals simp only [emit, stop] at hr
    all_goals subst hr
    all_goals simp [Ending.isFatal, Event.isClone, Event.isCommand, Event.isSummary]
  · suffices h : ∀ r, r = runLibPQ k w →
        (r.ending.isFatal = true ∧
          (∀ ev ∈ r.trace, ev.isClone = false ∧ ev.isCommand = false ∧ ev.isSummary = false) ∧
          (Event.repeatGetLatestTag "lib".toList "pq".toList libPQReleaseTagRegex ∈ r.trace →
            r.ending = Ending.requireNoError err ∧
              r.trace.getLast? =
                some (Event.repeatGetLatestTag "lib".toList "pq".toList libPQReleaseTagRegex)))
        from h _ rfl
    intro r hr
    simp only [runLibPQ, herr, orAbort, orFatal, orRequire] at hr
    repeat' split at hr
    all_goals simp only [emit, stop] at hr
    all_goals subst hr
    all_goals simp [Ending.isFatal, Event.isClone, Event.isCommand, Event.isSummary]

/-- C7, amended statement at a sample world whose tag discovery fails. -/
theorem tag_discovery_error_is_fatal_witness :
    (sampleWorld (Except.error "no release tag".toList) (sampleLists (some []) none)
        []).repeatGetLatestTag = Except.error "no release tag".toList ∧
      (runGORM sampleConsts (sampleWorld (Except.error "no release tag".toList)
        (sampleLists (some []) none) [])).ending = Ending.fatal "no release tag".toList ∧
      (runLibPQ sampleConsts (sampleWorld (Except.error "no release tag".toList)
        (sampleLists (some []) none) [])).ending =
          Ending.requireNoError "no release tag".toList := by
  have h := tag_discovery_error_is_fatal sampleConsts
    (sampleWorld (Except.error "no release tag".toList) (sampleLists (some []) none) [])
    "no release tag".toList rfl
  exact ⟨rfl, (h.1.2.2 (by decide)).1, (h.2.2.2 (by decide)).1⟩

/-- C7, counterexample. In a world where every collaborator succeeds but the
tag discovery, both runs abort at the tag discovery: they end in a failure of
the test, and no clone, no suite command and no summarizer call is made. -/
theorem tag_discovery_error_aborts :
    (runGORM sampleConsts (sampleWorld (Except.error "no release tag".toList)
        (sampleLists (some []) none) [])).ending = Ending.fatal "no release tag".toList ∧
      (runGORM sampleConsts (sampleWorld (Except.error "no release tag".toList)
        (sampleLists (some []) none) [])).trace.any
          (fun ev => ev.isClone || ev.isCommand || ev.isSummary) = false ∧
      (runLibPQ sampleConsts (sampleWorld (Except.error "no release tag".toList)
        (sampleLists (some []) none) [])).ending =
          Ending.requireNoError "no release tag".toList ∧
      (runLibPQ sampleConsts (sampleWorld (Except.error "no release tag".toList)
        (sampleLists (some []) none) [])).trace.any
          (fun ev => ev.isClone || ev.isCommand || ev.isSummary) = false := by
  decide

/-! ## The `go test` command line of the gorm run -/

theorem fieldsFrom_space (cur : GoString) (c : Char) (rest : GoString) (hc : isSpace c = true) :
    fieldsFrom cur (c :: rest) = (if cur.isEmpty then [] else [cur]) ++ fieldsFrom [] rest := by
  rw [fieldsFrom]
  cases cur <;> simp [hc]

theorem fieldsFrom_word (a : GoString) (ha : ∀ c ∈ a, isSpace c = false) :
    ∀ (cur rest : GoString), fieldsFrom cur (a ++ rest) = fieldsFrom (cur ++ a) rest := by
  induction a with
  | nil => intro cur rest; simp
  | cons c a ih =>
    intro cur rest
    have hc : isSpace c = false := ha c (List.mem_cons_self c a)
    rw [List.cons_append, fieldsFrom]
    simp only [hc, Bool.false_eq_true, if_false]
    rw [ih (fun d hd => ha d (List.mem_cons_of_mem c hd))]
    simp

theorem fieldsFrom_split (a : GoString) (c : Char) (hc : isSpace c = true) :
    ∀ (cur rest : GoString),
      fieldsFrom cur (a ++ c :: rest) = fieldsFrom cur (a ++ [c]) ++ fieldsFrom [] rest := by
  induction a with
  | nil =>
    intro cur rest
    simp only [List.nil_append]
    rw [fieldsFrom_space cur c rest hc, fieldsFrom_space cur c [] hc]
    simp [fieldsFrom]
  | cons d a ih =>
    intro cur rest
    by_cases hd : isSpace d = true
    · rw [List.cons_append, List.cons_append, fieldsFrom_space cur d _ hd,
        fieldsFrom_space cur d _ hd, ih, List.append_assoc]
    · rw [List.cons_append, List.cons_append, fieldsFrom, fieldsFrom]
      simp only [hd, if_false]
      exact ih _ _

theorem mem_fields_word_space (a : GoString) (ha : ∀ c ∈ a, isSpace c = false) (f : GoString)
    (hf : f ∈ fieldsFrom [] (a ++ [' '])) : f = a := by
  rw [fieldsFrom_word a ha, fieldsFrom_space _ ' ' [] (by decide)] at hf
  cases a with
  | nil => simp [fieldsFrom] at hf
  | cons c a => simpa [fieldsFrom] using hf

theorem runFlag_eq_none (cmd : GoString) (h : "-run".toList ∉ Fields cmd) :
    runFlag cmd = none := by
  have hd : (Fields cmd).dropWhile (fun word => word != "-run".toList) = [] := by
    rw [List.dropWhile_eq_nil_iff]
    intro x hx
    have : x ≠ "-run".toList := fun e => h (e ▸ hx)
    simpa using this
  simp only [runFlag]
  rw [hd]

/-- The suite command of the gorm run, cut at four of its blanks. -/
theorem gormSuiteCommand_eq (k : Consts) :
    gormSuiteCommand k =
      "cd".toList ++ ' ' :: ((k.goPath ++ "/src/github.com/go-gorm/gorm/tests/".toList) ++ ' ' ::
        ("&& GORMDIALECT=\"postgres\" \nPGUSER=root PGPORT=26257 PGSSLMODE=disable go test -v 2>&1 |".toList
          ++ ' ' :: ((k.goPath ++ "/bin/go-junit-report".toList) ++ ' ' ::
            "> ~/logs/report/gorm/report.xml".toList))) := by
  simp [gormSuiteCommand, gormTestPath, gormPath, gormRepo, gormResultsPath, gormResultsDir]

theorem gormSuiteCommand_runFlag (k : Consts) (hpath : ∀ c ∈ k.goPath, isSpace c = false) :
    runFlag (gormSuiteCommand k) = none := by
  apply runFlag_eq_none
  intro hmem
  have hsp : isSpace ' ' = true := by decide
  rw [gormSuiteCommand_eq, Fields, fieldsFrom_split "cd".toList ' ' hsp,
    fieldsFrom_split (k.goPath ++ "/src/github.com/go-gorm/gorm/tests/".toList) ' ' hsp,
    fieldsFrom_split
      "&& GORMDIALECT=\"postgres\" \nPGUSER=root PGPORT=26257 PGSSLMODE=disable go test -v 2>&1 |".toList
      ' ' hsp,
    fieldsFrom_split (k.goPath ++ "/bin/go-junit-report".toList) ' ' hsp] at hmem
  simp only [List.mem_append] at hmem
  have hw1 : ∀ c ∈ k.goPath ++ "/src/github.com/go-gorm/gorm/tests/".toList,
      isSpace c = false := by
    intro c hc
    rcases List.mem_append.mp hc with h | h
    · exact hpath c h
    · have hlit : ∀ d ∈ "/src/github.com/go-gorm/gorm/tests/".toList, isSpace d = false := by
        decide
      exact hlit c h
  have hw2 : ∀ c ∈ k.goPath ++ "/bin/go-junit-report".toList, isSpace c = false := by
    intro c hc
    rcases List.mem_append.mp hc with h | h
    · exact hpath c h
    · have hlit : ∀ d ∈ "/bin/go-junit-report".toList, isSpace d = false := by decide
      exact hlit c h
  rcases hmem with h | h | h | h | h
  · revert h; decide
  · have e := mem_fields_word_space _ hw1 _ h
    have hl := congrArg List.length e
    simp at hl
  · revert h; decide
  · have e := mem_fields_word_space _ hw2 _ h
    have hl := congrArg List.length e
    simp at hl
  · revert h; decide

/-- C9 (as the code behaves). In the gorm run the ignorelist does not restrict
what is executed: replacing the ignorelist (and its name) answered by
`getLists` changes neither the way the run ends nor any call but the log line
and the ignorelist argument of the summarizer; the only commands run with
`RunE` are the `mkdir`, the `CREATE DATABASE` and the fixed suite command; the
suite command has no `-run` flag (its words are read off when the Go path has
no white space), so it runs every test, whatever its name; and the ignorelist
reaches the summarizer unchanged. -/
theorem gorm_runs_ignorelisted_tests (k : Consts) (w : World) (g : GoString → Lists)
    (hg : ∀ v, (g v).expectedFailures = (w.getLists v).expectedFailures ∧
      (g v).blocklistName = (w.getLists v).blocklistName) :
    (runGORM k (w.withLists g)).ending = (runGORM k w).ending ∧
      (runGORM k (w.withLists g)).trace.map Event.eraseIgnoreList =
        (runGORM k w).trace.map Event.eraseIgnoreList ∧
      (∀ cmd, Event.runE cmd ∈ (runGORM k w).trace →
        cmd = "mkdir -p ".toList ++ gormResultsDir ∨
          cmd = "./cockroach sql -e \"CREATE DATABASE gorm\" --insecure".toList ∨
          cmd = gormSuiteCommand k) ∧
      ((∀ c ∈ k.goPath, isSpace c = false) →
        ∀ name, goTestRuns (gormSuiteCommand k) name = true) ∧
      (∀ ormName files blocklistName expected ignore version tag,
        Event.parseAndSummarizeJavaORMTestsResults ormName files blocklistName expected ignore
          version tag ∈ (runGORM k w).trace → ignore = (w.getLists version).ignoreList) := by
  have hg1 : ∀ v, (g v).expectedFailures = (w.getLists v).expectedFailures := fun v => (hg v).1
  have hg2 : ∀ v, (g v).blocklistName = (w.getLists v).blocklistName := fun v => (hg v).2
  have hrun : (∀ c ∈ k.goPath, isSpace c = false) →
      ∀ name, goTestRuns (gormSuiteCommand k) name = true := by
    intro hpath name
    simp only [goTestRuns, gormSuiteCommand_runFlag k hpath]
  suffices h : ∀ r1 r2, r1 = runGORM k (w.withLists g) → r2 = runGORM k w →
      (r1.ending = r2.ending ∧
        r1.trace.map Event.eraseIgnoreList = r2.trace.map Event.eraseIgnoreList ∧
        (∀ cmd, Event.runE cmd ∈ r2.trace →
          cmd = "mkdir -p ".toList ++ gormResultsDir ∨
            cmd = "./cockroach sql -e \"CREATE DATABASE gorm\" --insecure".toList ∨
            cmd = gormSuiteCommand k) ∧
        (∀ ormName files blocklistName expected ignore version tag,
          Event.parseAndSummarizeJavaORMTestsResults ormName files blocklistName expected ignore
            version tag ∈ r2.trace → ignore = (w.getLists version).ignoreList)) by
    obtain ⟨h1, h2, h3, h4⟩ := h _ _ rfl rfl
    exact ⟨h1, h2, h3, hrun, h4⟩
  intro r1 r2 hr1 hr2
  simp only [runGORM, World.withLists, hg1, hg2, orAbort, orFatal, orRequire] at hr1 hr2
  repeat' split at hr1
  all_goals simp only [*, if_true, if_false, not_true_eq_false, not_false_eq_true,
    Bool.false_eq_true] at hr2
  all_goals simp only [emit, stop] at hr1 hr2
  all_goals subst hr1
  all_goals subst hr2
  all_goals try simp [Event.eraseIgnoreList]
  all_goals (intro _ _ _ _ _ _ _ _ _ _ _ h5 h6 _; rw [h5, h6])

/-- C9, at a sample world whose ignorelist names `TestX`, compared with the
same world without ignorelist: the two gorm runs end the same way, and the
suite command runs `TestX`. -/
theorem gorm_runs_ignorelisted_tests_witness :
    (∀ v, (sampleLists (some []) none v).expectedFailures =
        ((sampleWorld (Except.ok "v1.22.0".toList)
          (sampleLists (some []) (some [("TestX".toList, "flaky".toList)])) []).getLists
            v).expectedFailures ∧
      (sampleLists (some []) none v).blocklistName =
        ((sampleWorld (Except.ok "v1.22.0".toList)
          (sampleLists (some []) (some [("TestX".toList, "flaky".toList)])) []).getLists
            v).blocklistName) ∧
      (runGORM sampleConsts ((sampleWorld (Except.ok "v1.22.0".toList)
          (sampleLists (some []) (some [("TestX".toList, "flaky".toList)])) []).withLists
            (sampleLists (some []) none))).ending =
        (runGORM sampleConsts (sampleWorld (Except.ok "v1.22.0".toList)
          (sampleLists (some []) (some [("TestX".toList, "flaky".toList)])) [])).ending ∧
      goTestRuns (gormSuiteCommand sampleConsts) "TestX".toList = true := by
  have h := gorm_runs_ignorelisted_tests sampleConsts
    (sampleWorld (Except.ok "v1.22.0".toList)
      (sampleLists (some []) (some [("TestX".toList, "flaky".toList)])) [])
    (sampleLists (some []) none) (fun _ => ⟨rfl, rfl⟩)
  exact ⟨fun _ => ⟨rfl, rfl⟩, h.1, h.2.2.2.1 (by decide) "TestX".toList⟩

set_option maxRecDepth 100000 in
/-- C9, counterexample. With an ignorelist that names `TestX`, the gorm run
still issues its suite command, and that command runs `TestX`. -/
theorem gorm_ignorelist_not_applied :
    blocklist.hasKey (some [("TestX".toList, "flaky".toList)]) "TestX".toList = true ∧
      Event.runE (gormSuiteCommand sampleConsts) ∈
        (runGORM sampleConsts (sampleWorld (Except.ok "v1.22.0".toList)
          (sampleLists (some []) (some [("TestX".toList, "flaky".toList)])) [])).trace ∧
      goTestRuns (gormSuiteCommand sampleConsts) "TestX".toList = true := by
  decide

/-! ## The reconciliation -/

theorem reconcileFrom_verdicts (outcomes : List (GoString × Outcome))
    (expectedFailures ignoreList : blocklist) (names : List GoString) :
    ∀ s s' : RunSummary,
      reconcileFrom outcomes expectedFailures ignoreList s names = Except.ok s' →
      ∀ p : GoString × ReconciliationVerdict,
        p ∈ s'.verdicts ↔
          p ∈ s.verdicts ∨
            (p.1 ∈ names ∧ classify outcomes expectedFailures ignoreList p.1 = Except.ok p.2) := by
  induction names with
  | nil =>
    intro s s' h p
    simp only [reconcileFrom, Except.ok.injEq] at h
    subst h
    simp
  | cons n rest ih =>
    intro s s' h p
    rw [reconcileFrom] at h
    cases hc : classify outcomes expectedFailures ignoreList n with
    | error e => rw [hc] at h; simp at h
    | ok v =>
      rw [hc] at h
      simp only at h
      rw [ih _ _ h p]
      simp only [RunSummary.add, List.mem_append, List.mem_singleton, List.mem_cons,
        List.not_mem_nil, or_false]
      constructor
      · rintro ((h1 | h1) | h1)
        · exact Or.inl h1
        · subst h1
          exact Or.inr ⟨Or.inl rfl, hc⟩
        · exact Or.inr ⟨Or.inr h1.1, h1.2⟩
      · rintro (h1 | ⟨h1 | h1, h2⟩)
        · exact Or.inl (Or.inl h1)
        · refine Or.inl (Or.inr ?_)
          rw [h1, hc] at h2
          simp only [Except.ok.injEq] at h2
          exact Prod.ext (by exact h1) (by exact h2.symm)
        · exact Or.inr ⟨h1, h2⟩

/-- C4. The summarizer is the last call of each run and receives the
blocklist and the ignorelist answered by `getLists`; the reconciliation gives
every executed test that is not in the ignorelist the verdict of the four-way
table: not in the blocklist and Pass is ExpectedPass, not in the blocklist and
Fail is UnexpectedFail, in the blocklist and Fail is ExpectedFail, in the
blocklist and Pass is UnexpectedPass; that verdict, and no other, is recorded
for the test in the summary. -/
theorem reconciliation_four_way (k : Consts) (w : World)
    (outcomes : List (GoString × Outcome)) (expectedFailures ignoreList : blocklist)
    (name : GoString) (outcome : Outcome)
    (hignore : ignoreList.hasKey name = false)
    (hexecuted : outcomes.lookup name = some outcome) :
    ((expectedFailures.hasKey name = false → outcome = Outcome.Pass →
        classify outcomes expectedFailures ignoreList name =
          Except.ok ReconciliationVerdict.ExpectedPass) ∧
      (expectedFailures.hasKey name = false → outcome = Outcome.Fail →
        classify outcomes expectedFailures ignoreList name =
          Except.ok ReconciliationVerdict.UnexpectedFail) ∧
      (expectedFailures.hasKey name = true → outcome = Outcome.Fail →
        classify outcomes expectedFailures ignoreList name =
          Except.ok ReconciliationVerdict.ExpectedFail) ∧
      (expectedFailures.hasKey name = true → outcome = Outcome.Pass →
        classify outcomes expectedFailures ignoreList name =
          Except.ok ReconciliationVerdict.UnexpectedPass)) ∧
    (∀ allDiscovered summary,
      reconcile outcomes expectedFailures ignoreList allDiscovered = Except.ok summary →
      name ∈ allDiscovered →
      ∀ verdict, (name, verdict) ∈ summary.verdicts ↔
        verdict = fourWay outcome (expectedFailures.hasKey name)) ∧
    (∀ ormName files blocklistName expected ignore version tag,
      Event.parseAndSummarizeJavaORMTestsResults ormName files blocklistName expected ignore
          version tag ∈ (runGORM k w).trace →
        expected = (w.getLists version).expectedFailures ∧
          ignore = (w.getLists version).ignoreList ∧
          (runGORM k w).trace.getLast? = some (Event.parseAndSummarizeJavaORMTestsResults
            ormName files blocklistName expected ignore version tag)) ∧
    (∀ ormName files blocklistName expected ignore version tag,
      Event.parseAndSummarizeJavaORMTestsResults ormName files blocklistName expected ignore
          version tag ∈ (runLibPQ k w).trace →
        expected = (w.getLists version).expectedFailures ∧
          ignore = (w.getLists version).ignoreList ∧
          (runLibPQ k w).trace.getLast? = some (Event.parseAndSummarizeJavaORMTestsResults
            ormName files blocklistName expected ignore version tag)) := by
  have hc : classify outcomes expectedFailures ignoreList name =
      Except.ok (fourWay outcome (expectedFailures.hasKey name)) := by
    simp [classify, hignore, hexecuted]
  refine ⟨⟨?_, ?_, ?_, ?_⟩, ?_, ?_, ?_⟩
  · intro h1 h2; rw [hc, h1, h2]; rfl
  · intro h1 h2; rw [hc, h1, h2]; rfl
  · intro h1 h2; rw [hc, h1, h2]; rfl
  · intro h1 h2; rw [hc, h1, h2]; rfl
  · intro allDiscovered summary hs hmem verdict
    rw [reconcileFrom_verdicts outcomes expectedFailures ignoreList allDiscovered _ _ hs]
    simp only [List.not_mem_nil, false_or, hmem, true_and, hc, Except.ok.injEq]
    exact eq_comm
  · suffices h : ∀ r, r = runGORM k w →
        ∀ ormName files blocklistName expected ignore version tag,
          Event.parseAndSummarizeJavaORMTestsResults ormName files blocklistName expected ignore
              version tag ∈ r.trace →
            expected = (w.getLists version).expectedFailures ∧
              ignore = (w.getLists version).ignoreList ∧
              r.trace.getLast? = some (Event.parseAndSummarizeJavaORMTestsResults
                ormName files blocklistName expected ignore version tag) from h _ rfl
    intro r hr
    simp only [runGORM, orAbort, orFatal, orRequire] at hr
    repeat' split at hr
    all_goals simp only [emit, stop] at hr
    all_goals subst hr
    all_goals intro _ _ _ _ _ _ _ hmem
    all_goals simp only [List.mem_cons, List.mem_singleton, List.mem_nil_iff, reduceCtorEq,
      Event.parseAndSummarizeJavaORMTestsResults.injEq, false_or, or_false, or_self] at hmem
    all_goals obtain ⟨h1, h2, h3, h4, h5, h6, h7⟩ := hmem
    all_goals subst h1 h2 h3 h4 h5 h6 h7
    all_goals simp
  · suffices h : ∀ r, r = runLibPQ k w →
        ∀ ormName files blocklistName expected ignore version tag,
          Event.parseAndSummarizeJavaORMTestsResults ormName files blocklistName expected ignore
              version tag ∈ r.trace →
            expected = (w.getLists version).expectedFailures ∧
              ignore = (w.getLists version).ignoreList ∧
              r.trace.getLast? = some (Event.parseAndSummarizeJavaORMTestsResults
                ormName files blocklistName expected ignore version tag) from h _ rfl
    intro r hr
    simp only [runLibPQ, orAbort, orFatal, orRequire, allowedTests_eq] at hr
    repeat' split at hr
    all_goals simp only [emit, stop] at hr
    all_goals subst hr
    all_goals intro _ _ _ _ _ _ _ hmem
    all_goals simp only [List.mem_cons, List.mem_singleton, List.mem_nil_iff, reduceCtorEq,
      Event.parseAndSummarizeJavaORMTestsResults.injEq, false_or, or_false, or_self] at hmem
    all_goals obtain ⟨h1, h2, h3, h4, h5, h6, h7⟩ := hmem
    all_goals subst h1 h2 h3 h4 h5 h6 h7
    all_goals simp

/-- C4, at scenario B of the specification: `T1` is not in the blocklist and
fails, so its verdict is UnexpectedFail. -/
theorem reconciliation_four_way_witness :
    blocklist.hasKey (some [("T3".toList, "flaky".toList)]) "T1".toList = false ∧
      List.lookup "T1".toList [("T1".toList, Outcome.Fail), ("T2".toList, Outcome.Pass)] =
        some Outcome.Fail ∧
      classify [("T1".toList, Outcome.Fail), ("T2".toList, Outcome.Pass)]
          (some [("T2".toList, "known".toList)]) (some [("T3".toList, "flaky".toList)])
          "T1".toList = Except.ok ReconciliationVerdict.UnexpectedFail := by
  have h := reconciliation_four_way sampleConsts
    (sampleWorld (Except.ok "v1.22.0".toList) (sampleLists (some []) none) [])
    [("T1".toList, Outcome.Fail), ("T2".toList, Outcome.Pass)]
    (some [("T2".toList, "known".toList)]) (some [("T3".toList, "flaky".toList)])
    "T1".toList Outcome.Fail (by decide) (by decide)
  exact ⟨by decide, by decide, h.1.2.1 (by decide) rfl⟩

end Roachtest
